import Mathlib

/-!
Shallow embedding of the studio model query layer
(`src/engine/server/studio.rs`) and of the triangle draw-stream guard
(`src/engine/shared/engine/tri.rs`).

Machine floats (`f32`) are modelled as exact rationals; the saturating
truncating casts `as i32` / `as u8` are modelled explicitly.  External
collaborators (random source, sound precache, entity controller-state
array, diagnostic log) are modelled as explicit parameters or as data
returned by the operation.
-/

namespace Studio

/-- Raw animation event record (`mstudioevent_s` as used through the
`Event` wrapper): frame index, raw event kind value and the inline text
payload (`options`). -/
structure Event where
  frame : Int
  event : Int
  options : String
deriving DecidableEq

/-- Source `EventKind::SPECIFIC.into_raw()`. -/
def EventKind.SPECIFIC : Int := 0

/-- Source `EventKind::SCRIPTED.into_raw()`. -/
def EventKind.SCRIPTED : Int := 1000

/-- Source `EventKind::SHARED.into_raw()`. -/
def EventKind.SHARED : Int := 2000

/-- Source `EventKind::CLIENT.into_raw()`. -/
def EventKind.CLIENT : Int := 5000

/-- Source `EventKind::SCRIPT_SOUND.into_raw()`. -/
def EventKind.SCRIPT_SOUND : Int := 1004

/-- Source `EventKind::SCRIPT_SOUND_VOICE.into_raw()`. -/
def EventKind.SCRIPT_SOUND_VOICE : Int := 1008

/-- Source `EventKind::is_specific`: `raw >= SPECIFIC && raw < SCRIPTED`. -/
def EventKind.is_specific (k : Int) : Bool :=
  decide (EventKind.SPECIFIC ≤ k) && decide (k < EventKind.SCRIPTED)

/-- Source `EventKind::is_scripted`: `raw >= SCRIPTED && raw < SHARED`. -/
def EventKind.is_scripted (k : Int) : Bool :=
  decide (EventKind.SCRIPTED ≤ k) && decide (k < EventKind.SHARED)

/-- Source `EventKind::is_shared`: `raw >= SHARED && raw < CLIENT`. -/
def EventKind.is_shared (k : Int) : Bool :=
  decide (EventKind.SHARED ≤ k) && decide (k < EventKind.CLIENT)

/-- Source `EventKind::is_client`: `raw >= CLIENT`. -/
def EventKind.is_client (k : Int) : Bool :=
  decide (EventKind.CLIENT ≤ k)

/-- Source `EventKind::is_script_sound`: `matches!(*self, SCRIPT_SOUND | SCRIPT_SOUND_VOICE)`. -/
def EventKind.is_script_sound (k : Int) : Bool :=
  k == EventKind.SCRIPT_SOUND || k == EventKind.SCRIPT_SOUND_VOICE

/-- The fields of `mstudioseqdesc_s` that the verified operations read,
exposed through the `Sequence` wrapper.  `events` stands for the slice
resolved from the descriptor's `eventindex`/`numevents` pair. -/
structure SeqDesc where
  label : String
  fps : Rat
  flags : Int
  activity : Int
  actweight : Int
  numframes : Int
  events : List Event
deriving DecidableEq

/-- Source `Sequence::FLAG_LOOPING = 1 << 0`; `is_looping` tests `flags & FLAG_LOOPING != 0`. -/
def SeqDesc.is_looping (s : SeqDesc) : Bool :=
  Int.land s.flags 1 != 0

/-- Source `Sequence::precache`, with the two external effects made explicit:
the first component is the list of names passed to
`engine.precache_sound` (in call order) and the second counts the
`error!` diagnostics emitted for sound events with an empty name. -/
def precacheEvents : List Event → List String × Nat
  | [] => ([], 0)
  | event :: rest =>
    if EventKind.CLIENT ≤ event.event then
      -- do not send client-side events to the server
      precacheEvents rest
    else if !EventKind.is_script_sound event.event then
      precacheEvents rest
    else if event.options ≠ "" then
      let r := precacheEvents rest
      (event.options :: r.1, r.2)
    else
      let r := precacheEvents rest
      (r.1, r.2 + 1)

/-- Source `Sequence::precache` iterates the sequence's event slice. -/
def SeqDesc.precache (s : SeqDesc) : List String × Nat :=
  precacheEvents s.events

/-- Source `Sequence::animation_events(start, end)`: normalize the window, then
filter the event slice with the source's predicate. -/
def SeqDesc.animation_events (s : SeqDesc) (start end_ : Rat) : List Event :=
  let w : Rat × Rat :=
    if 1 < s.numframes then
      let last_frame : Rat := ((s.numframes - 1 : Int) : Rat)
      (start * (last_frame / 256), end_ * (last_frame / 256))
    else
      (0, 1)
  s.events.filter fun event =>
    if !EventKind.is_client event.event then
      let frame : Rat := (event.frame : Rat)
      if frame ≥ w.1 && frame < w.2 then
        true
      else if s.is_looping
          && w.2 ≥ ((s.numframes - 1 : Int) : Rat)
          && frame < w.2 - ((s.numframes + 1 : Int) : Rat) then
        true
      else
        false
    else
      false

/-- The fields of `mstudiobonecontroller_t` read by the verified
operations (`type_` is the raw motion bitset reinterpreted as `u32`).
The source field `end` is a Lean keyword and is embedded as `end_`. -/
structure BoneController where
  type_ : Nat
  start : Rat
  end_ : Rat
  index : Int
deriving DecidableEq

/-- Source `Motion::XR | Motion::YR | Motion::ZR` = bits 3, 4 and 5. -/
def MOTION_ROTATION_MASK : Nat := (1 <<< 3) ||| (1 <<< 4) ||| (1 <<< 5)

/-- Source `ctrl.ty().intersects(Motion::XR | Motion::YR | Motion::ZR)`. -/
def BoneController.is_rotational (c : BoneController) : Bool :=
  c.type_ &&& MOTION_ROTATION_MASK != 0

/-- Truncation of an exact rational toward zero, as a float-to-integer
cast begins by doing. -/
def ratTrunc (q : Rat) : Int :=
  if 0 ≤ q then ⌊q⌋ else ⌈q⌉

/-- Rust's saturating `f32 as i32` cast on the exact-rational model. -/
def f32_to_i32 (q : Rat) : Int :=
  max (-(2 ^ 31)) (min (2 ^ 31 - 1) (ratTrunc q))

/-- Rust's saturating `f32 as u8` cast on the exact-rational model. -/
def f32_to_u8 (q : Rat) : Nat :=
  if q ≤ 0 then 0 else min 255 ⌊q⌋.toNat

/-- The rotation wrapping step of `Model::set_bone_controller`
(lines 591-602 of `studio.rs`), applied to the value after the
`end < start` negation step.  The near-circular branch folds around the
range midpoint; the other branch wraps using truncating `as i32 as f32`
casts. -/
def wrapAngle (start end_ value : Rat) : Rat :=
  if start + 359 ≥ end_ then
    let v := if value > (start + end_) * (1 / 2 : Rat) + 180 then value - 360 else value
    if v < (start + end_) * (1 / 2 : Rat) - 180 then v + 360 else v
  else if value > 360 then
    value - ((f32_to_i32 (value / 360) : Int) : Rat) * 360
  else if value < 0 then
    value + ((f32_to_i32 (value / (-360) + 1) : Int) : Rat) * 360
  else
    value

/-- The model view: the header-resolved tables that the verified
operations read (name, bone controller table, sequence table). -/
structure Model where
  name : String
  bone_controllers : List BoneController
  sequences : List SeqDesc
deriving DecidableEq

/-- Source `Model::set_bone_controller(v, controller, value)`.  The entity's
controller-state collaborator is modelled as a map from slot to byte;
the result is the returned `Option` together with the updated state. -/
def Model.set_bone_controller (m : Model) (st : Int → Nat) (controller : Int)
    (value : Rat) : Option Rat × (Int → Nat) :=
  match m.bone_controllers.find? (fun i => i.index == controller) with
  | none => (none, st)
  | some ctrl =>
    -- wrap rotation controllers around 0 and 360 degrees
    let value :=
      if ctrl.is_rotational then
        let value := if ctrl.end_ < ctrl.start then -value else value
        wrapAngle ctrl.start ctrl.end_ value
      else value
    let diff := ctrl.end_ - ctrl.start
    let setting := f32_to_u8 (255 * (value - ctrl.start) / diff)
    (some ((setting : Rat) * (1 / 255 : Rat) * diff + ctrl.start),
     fun j => if j == controller then setting else st j)

/-- Source `Model::sequences`: the sequence iterator carries each descriptor's
index within the table. -/
def Model.sequencesEnum (m : Model) : List (Nat × SeqDesc) :=
  m.sequences.enum

/-- Source `Model::sequences_by_activity`: sequences whose activity tag equals
the argument. -/
def Model.sequences_by_activity (m : Model) (activity : Int) : List (Nat × SeqDesc) :=
  m.sequencesEnum.filter fun seq => seq.2.activity == activity

/-- Source `Model::sequence(index)`: descriptor at `index`, or `none` when out
of range. -/
def Model.sequence (m : Model) (index : Nat) : Option SeqDesc :=
  m.sequences.get? index

/-- Modelled from the spec: `CStrThin::eq_ignore_case` lives in the
shared crate of this repository, outside the given sources; the spec
describes it as case-insensitive label matching, modelled here as
equality after lowercasing. -/
def eq_ignore_case (a b : String) : Bool :=
  a.data.map Char.toLower == b.data.map Char.toLower

/-- Source `Model::find_sequence(name)`: first sequence whose label matches the
name case-insensitively. -/
def Model.find_sequence (m : Model) (name : String) : Option (Nat × SeqDesc) :=
  m.sequencesEnum.find? fun seq => eq_ignore_case seq.2.label name

/-- Source `Model::find_sequence_index(name)`: as `find_sequence`, with `0` as
the not-found sentinel. -/
def Model.find_sequence_index (m : Model) (name : String) : Nat :=
  match m.find_sequence name with
  | none => 0
  | some seq => seq.1

/-- Rust's `Iterator::max_by_key` on a list: `none` on the empty list,
otherwise a fold that keeps the accumulator only when its key is
strictly greater, so ties go to the later element. -/
def max_by_key {α : Type} (key : α → Int) : List α → Option α
  | [] => none
  | x :: xs => some (xs.foldl (fun a b => if key b < key a then a else b) x)

/-- Source `Model::find_sequence_by_activity_heaviest(activity)`:
`sequences_by_activity(activity).max_by_key(activity_weight)`. -/
def Model.find_sequence_by_activity_heaviest (m : Model) (activity : Int) :
    Option (Nat × SeqDesc) :=
  max_by_key (fun seq => seq.2.actweight) (m.sequences_by_activity activity)

/-- Source `Model::find_sequence_index_by_activity_heaviest`: index with
sentinel `0`. -/
def Model.find_sequence_index_by_activity_heaviest (m : Model) (activity : Int) : Nat :=
  match m.find_sequence_by_activity_heaviest activity with
  | none => 0
  | some seq => seq.1

/-- The selection loop of `Model::find_sequence_by_activity`.  The
external random source is modelled as `rand call lo hi`; the call
counter advances only when `engine.random_int` is actually invoked (the
source's `||` short-circuits when the running total is zero). -/
def selectByActivity (rand : Nat → Int → Int → Int) :
    List (Nat × SeqDesc) → Nat → Int → Option (Nat × SeqDesc) → Option (Nat × SeqDesc)
  | [], _, _, ret => ret
  | seq :: rest, calls, weight_total, ret =>
    let weight_total := weight_total + seq.2.actweight
    if weight_total == 0 then
      selectByActivity rand rest calls weight_total (some seq)
    else if rand calls 0 (weight_total - 1) < seq.2.actweight then
      selectByActivity rand rest (calls + 1) weight_total (some seq)
    else
      selectByActivity rand rest (calls + 1) weight_total ret

/-- Source `Model::find_sequence_by_activity(activity)`: weighted random
selection over `sequences_by_activity(activity)`. -/
def Model.find_sequence_by_activity (m : Model) (activity : Int)
    (rand : Nat → Int → Int → Int) : Option (Nat × SeqDesc) :=
  selectByActivity rand (m.sequences_by_activity activity) 0 0 none

/-- Source `Model::find_sequence_index_by_activity`: index with sentinel `0`. -/
def Model.find_sequence_index_by_activity (m : Model) (activity : Int)
    (rand : Nat → Int → Int → Int) : Nat :=
  match m.find_sequence_by_activity activity rand with
  | none => 0
  | some seq => seq.1

/-- A range-respecting random source that always draws the low end of
the requested range. -/
def randLo : Nat → Int → Int → Int := fun _ lo _ => lo

/-- Fixture: a sequence descriptor with the given label, activity and
activity weight, and no events. -/
def simpleSeq (label : String) (activity actweight : Int) : SeqDesc :=
  ⟨label, 0, 0, activity, actweight, 1, []⟩

/-- Fixture: two sequences sharing activity `3` with equal weight `5`. -/
def modelTie : Model := ⟨"tie", [], [simpleSeq "a" 3 5, simpleSeq "b" 3 5]⟩

/-- Fixture: a single sequence of activity `3` with negative weight. -/
def modelNegWeight : Model := ⟨"neg", [], [simpleSeq "a" 3 (-5)]⟩

/-- Fixture: one activity-4 weight-0 sequence and one activity-3
weight-2 sequence. -/
def modelSingle : Model := ⟨"single", [], [simpleSeq "a" 4 0, simpleSeq "b" 3 2]⟩

/-- Fixture: a model with an empty sequence table. -/
def modelEmpty : Model := ⟨"empty", [], []⟩

/-- Fixture: the spec's weighted example — activity-3 sequences of
weights 5 and 9, and an activity-4 sequence of weight 1. -/
def modelWeights : Model :=
  ⟨"weights", [], [simpleSeq "a" 3 5, simpleSeq "b" 3 9, simpleSeq "c" 4 1]⟩

/-- Fixture: a model with one rotational bone controller at slot
index `2` whose range `[0, 720]` is not near-circular. -/
def modelBC : Model := ⟨"bc", [⟨8, 0, 720, 2⟩], []⟩

/-- Fixture: the all-zero controller state. -/
def stZero : Int → Nat := fun _ => 0

/-- Fixture: an event at frame `5` with a non-client kind. -/
def ev5 : Event := ⟨5, 0, ""⟩

/-- Fixture: a 10-frame non-looping sequence with one event at frame `5`. -/
def seq10 : SeqDesc := ⟨"ten", 1, 0, 0, 0, 10, [ev5]⟩

/-- Spec-side window normalization for C3, following the claim's words:
multiply `start` and `end` by `(frame_count - 1)/256` when
`frame_count > 1`, else force the window to `[0, 1)`. -/
def specWindow (s : SeqDesc) (start end_ : Rat) : Rat × Rat :=
  if 1 < s.numframes then
    (start * ((((s.numframes : Int) : Rat) - 1) / 256),
     end_ * ((((s.numframes : Int) : Rat) - 1) / 256))
  else
    (0, 1)

/-- Spec-side matching rule for C3: the event's kind is not in the
client band, and its frame lies in the normalized window `[start, end)`
or — when the sequence is looping and the normalized end reaches
`frame_count - 1` — satisfies `frame < end - (frame_count + 1)`. -/
def specEventMatch (s : SeqDesc) (start end_ : Rat) (e : Event) : Prop :=
  EventKind.is_client e.event = false ∧
    ((specWindow s start end_).1 ≤ (e.frame : Rat) ∧
        (e.frame : Rat) < (specWindow s start end_).2 ∨
      s.is_looping = true ∧
        (specWindow s start end_).2 ≥ ((s.numframes : Int) : Rat) - 1 ∧
        (e.frame : Rat) < (specWindow s start end_).2 - (((s.numframes : Int) : Rat) + 1))

end Studio

namespace Tri

/-- The observable state of the process-wide draw-stream guard of
`tri.rs`: the `DRAW_LOCK` flag, the number of live `Draw` values, and a
counter of the calls made to the engine's `End` primitive. -/
structure DrawSys where
  lock : Bool
  streams : Nat
  endCalls : Nat
deriving DecidableEq

/-- The two stateful operations on the guard: `Draw::begin` and the
`Drop` glue that `Draw::end`, early returns and panics all funnel
through. -/
inductive DrawOp where
  | beginStream
  | dropStream
deriving DecidableEq

/-- One step of the draw-stream state machine.  `Draw::begin` panics
(`none`) when `DRAW_LOCK` is already set, otherwise sets the flag and
opens the stream; `Drop for Draw` requires a live stream, calls the
`End` primitive once and clears the flag. -/
def step (s : DrawSys) : DrawOp → Option DrawSys
  | .beginStream =>
    if s.lock then none
    else some ⟨true, s.streams + 1, s.endCalls⟩
  | .dropStream =>
    if s.streams = 0 then none
    else some ⟨false, s.streams - 1, s.endCalls + 1⟩

/-- Running a list of draw operations from a state; `none` as soon as a
step aborts. -/
def run : DrawSys → List DrawOp → Option DrawSys
  | s, [] => some s
  | s, op :: ops =>
    match step s op with
    | none => none
    | some s' => run s' ops

/-- The process start state: `DRAW_LOCK` is statically `false` and no
stream is open. -/
def initState : DrawSys := ⟨false, 0, 0⟩

end Tri

open Studio

/-- C7 (amended): the four event-kind band predicates are pairwise
disjoint for every raw value, and at least one — hence exactly one —
of them holds precisely for the nonnegative raw values; every negative
raw value lies in no band. -/
theorem event_bands_partition (k : Int) :
    ((EventKind.is_specific k = true ∨ EventKind.is_scripted k = true ∨
        EventKind.is_shared k = true ∨ EventKind.is_client k = true) ↔ 0 ≤ k) ∧
    ¬(EventKind.is_specific k = true ∧ EventKind.is_scripted k = true) ∧
    ¬(EventKind.is_specific k = true ∧ EventKind.is_shared k = true) ∧
    ¬(EventKind.is_specific k = true ∧ EventKind.is_client k = true) ∧
    ¬(EventKind.is_scripted k = true ∧ EventKind.is_shared k = true) ∧
    ¬(EventKind.is_scripted k = true ∧ EventKind.is_client k = true) ∧
    ¬(EventKind.is_shared k = true ∧ EventKind.is_client k = true) := by
  simp only [EventKind.is_specific, EventKind.is_scripted, EventKind.is_shared,
    EventKind.is_client, EventKind.SPECIFIC, EventKind.SCRIPTED, EventKind.SHARED,
    EventKind.CLIENT, Bool.and_eq_true, decide_eq_true_eq]
  omega

/-- C7 counterexample: the raw event kind value `-1` is a valid `i32`
value for which none of the four band predicates holds, so the bands do
not cover the whole space of event kind values. -/
theorem event_bands_partition_cex :
    EventKind.is_specific (-1) = false ∧ EventKind.is_scripted (-1) = false ∧
    EventKind.is_shared (-1) = false ∧ EventKind.is_client (-1) = false := by
  decide

/-- C6: `set_bone_controller` returns `none` exactly when no bone
controller descriptor carries the requested slot index, and in that
case the entity's controller-state array is left untouched. -/
theorem set_bone_controller_not_found (m : Model) (st : Int → Nat) (c : Int) (v : Rat) :
    ((m.set_bone_controller st c v).1 = none ↔
      ∀ ctrl ∈ m.bone_controllers, ctrl.index ≠ c) ∧
    ((m.set_bone_controller st c v).1 = none → (m.set_bone_controller st c v).2 = st) := by
  unfold Model.set_bone_controller
  cases hfind : m.bone_controllers.find? (fun i => i.index == c) with
  | none =>
    refine ⟨⟨fun _ => ?_, fun _ => rfl⟩, fun _ => rfl⟩
    intro ctrl hmem
    have h := List.find?_eq_none.mp hfind ctrl hmem
    simpa using h
  | some ctrl =>
    refine ⟨⟨fun h => ?_, fun h => ?_⟩, fun h => ?_⟩
    · simp at h
    · have hmem := List.mem_of_find?_eq_some hfind
      have hidx : ctrl.index = c := by
        have := List.find?_some hfind
        simpa using this
      exact absurd hidx (h ctrl hmem)
    · simp at h

/-- C6 witness: on a model whose only controller uses slot index `2`, a
request for slot `5` leaves the controller state unchanged. -/
theorem set_bone_controller_not_found_wit :
    (modelBC.set_bone_controller stZero 5 0).2 = stZero :=
  (set_bone_controller_not_found modelBC stZero 5 0).2
    ((set_bone_controller_not_found modelBC stZero 5 0).1.mpr (by decide))

/-- Invariant of the draw-stream state machine: at most one stream is
live and the lock is set exactly while a stream is live. -/
theorem draw_run_inv (ops : List Tri.DrawOp) :
    ∀ s0 : Tri.DrawSys, s0.streams ≤ 1 → (s0.lock = true ↔ s0.streams = 1) →
      ∀ s, Tri.run s0 ops = some s →
        s.streams ≤ 1 ∧ (s.lock = true ↔ s.streams = 1) := by
  induction ops with
  | nil =>
    intro s0 h1 h2 s hrun
    cases hrun
    exact ⟨h1, h2⟩
  | cons op ops ih =>
    intro s0 h1 h2 s hrun
    cases op with
    | beginStream =>
      by_cases hl : s0.lock
      · simp [Tri.run, Tri.step, hl] at hrun
      · have hs0 : s0.streams = 0 := by
          rcases Nat.lt_or_ge s0.streams 1 with h | h
          · omega
          · exact absurd (h2.mpr (by omega)) hl
        simp only [Tri.run, Tri.step, hl, if_false] at hrun
        exact ih _ (by simp [hs0]) (by simp [hs0]) s hrun
    | dropStream =>
      by_cases hs : s0.streams = 0
      · simp [Tri.run, Tri.step, hs] at hrun
      · simp only [Tri.run, Tri.step, hs, if_false] at hrun
        exact ih _ (by simp; omega) (by simp; omega) s hrun

/-- C9: beginning a draw stream while the lock is set aborts; a
successful begin sets the lock; dropping a live stream calls the `End`
primitive exactly once and clears the lock; and along every abort-free
run from the start state at most one stream is ever live. -/
theorem draw_stream_exclusive :
    (∀ s : Tri.DrawSys, s.lock = true → Tri.step s .beginStream = none) ∧
    (∀ s s' : Tri.DrawSys, Tri.step s .beginStream = some s' → s'.lock = true) ∧
    (∀ s s' : Tri.DrawSys, Tri.step s .dropStream = some s' →
      s'.endCalls = s.endCalls + 1 ∧ s'.lock = false) ∧
    (∀ (ops : List Tri.DrawOp) (s : Tri.DrawSys),
      Tri.run Tri.initState ops = some s → s.streams ≤ 1) := by
  refine ⟨?_, ?_, ?_, ?_⟩
  · intro s h
    simp [Tri.step, h]
  · intro s s' h
    unfold Tri.step at h
    by_cases hl : s.lock = true
    · rw [if_pos hl] at h
      exact Option.noConfusion h
    · rw [if_neg hl] at h
      cases h
      rfl
  · intro s s' h
    unfold Tri.step at h
    by_cases hs : s.streams = 0
    · rw [if_pos hs] at h
      exact Option.noConfusion h
    · rw [if_neg hs] at h
      cases h
      exact ⟨rfl, rfl⟩
  · intro ops s hrun
    exact (draw_run_inv ops Tri.initState (by simp [Tri.initState])
      (by simp [Tri.initState]) s hrun).1

/-- C9 witness: the run `begin; drop` completes without aborting, calls
`End` once, and its final state has at most one live stream. -/
theorem draw_stream_exclusive_wit :
    Tri.run Tri.initState [Tri.DrawOp.beginStream, Tri.DrawOp.dropStream] =
      some ⟨false, 0, 1⟩ ∧ (⟨false, 0, 1⟩ : Tri.DrawSys).streams ≤ 1 :=
  ⟨by decide, draw_stream_exclusive.2.2.2
    [Tri.DrawOp.beginStream, Tri.DrawOp.dropStream] ⟨false, 0, 1⟩ (by decide)⟩

/-- C10: on a model with an empty sequence table every index-returning
lookup still answers the sentinel `0`, even though `sequence(0)` is
"not found" on that model. -/
theorem empty_model_sentinels (m : Model) (h : m.sequences = []) :
    ∀ (name : String) (act : Int) (rand : Nat → Int → Int → Int),
      m.find_sequence_index name = 0 ∧
      m.find_sequence_index_by_activity act rand = 0 ∧
      m.find_sequence_index_by_activity_heaviest act = 0 ∧
      m.sequence 0 = none := by
  intro name act rand
  refine ⟨?_, ?_, ?_, ?_⟩
  · simp [Model.find_sequence_index, Model.find_sequence, Model.sequencesEnum, h]
  · simp [Model.find_sequence_index_by_activity, Model.find_sequence_by_activity,
      Model.sequences_by_activity, Model.sequencesEnum, h, selectByActivity]
  · simp [Model.find_sequence_index_by_activity_heaviest,
      Model.find_sequence_by_activity_heaviest, Model.sequences_by_activity,
      Model.sequencesEnum, h, max_by_key]
  · simp [Model.sequence, h]

/-- C10 witness: the concrete empty model answers `0` to all three
index lookups while `sequence(0)` is absent. -/
theorem empty_model_sentinels_wit :
    modelEmpty.find_sequence_index "idle" = 0 ∧
    modelEmpty.find_sequence_index_by_activity 7 randLo = 0 ∧
    modelEmpty.find_sequence_index_by_activity_heaviest 7 = 0 ∧
    modelEmpty.sequence 0 = none :=
  empty_model_sentinels modelEmpty rfl "idle" 7 randLo

/-- The precache loop, characterized over any event list: the sound
collaborator is called once per below-client scripted sound event with
a non-empty name, in order, and one diagnostic is counted per such
event with an empty name. -/
theorem precacheEvents_spec (l : List Event) :
    precacheEvents l =
      ((l.filter fun e => !EventKind.is_client e.event &&
          EventKind.is_script_sound e.event && e.options != "").map Event.options,
       (l.filter fun e => !EventKind.is_client e.event &&
          EventKind.is_script_sound e.event && e.options == "").length) := by
  induction l with
  | nil => rfl
  | cons e rest ih =>
    unfold precacheEvents
    by_cases hc : EventKind.CLIENT ≤ e.event
    · have hcl : EventKind.is_client e.event = true := by
        simp [EventKind.is_client, hc]
      rw [if_pos hc]
      simp [List.filter_cons, hcl, ih]
    · have hcl : EventKind.is_client e.event = false := by
        simp [EventKind.is_client, hc]
      rw [if_neg hc]
      by_cases hs : EventKind.is_script_sound e.event
      · by_cases ho : e.options = ""
        · rw [if_neg (by simp [hs]), if_neg (by simp [ho])]
          simp [List.filter_cons, hcl, hs, ho, ih]
        · rw [if_neg (by simp [hs]), if_pos ho]
          simp [List.filter_cons, hcl, hs, ho, ih]
      · have hs' : EventKind.is_script_sound e.event = false := by
          simpa using hs
        rw [if_pos (by simp [hs'])]
        simp [List.filter_cons, hcl, hs', ih]

/-- C5: `precache` on a sequence calls the sound-precache collaborator
exactly once (in order) for each event below the client band that is a
scripted sound event with non-empty options, and counts exactly one
diagnostic for each such sound event with empty options; all other
events cause neither. -/
theorem precache_sound_calls (s : SeqDesc) :
    s.precache =
      ((s.events.filter fun e => !EventKind.is_client e.event &&
          EventKind.is_script_sound e.event && e.options != "").map Event.options,
       (s.events.filter fun e => !EventKind.is_client e.event &&
          EventKind.is_script_sound e.event && e.options == "").length) :=
  precacheEvents_spec s.events


/-- C3: `animation_events(start, end)` yields exactly the events of the
sequence whose kind is outside the client band and whose frame falls in
the normalized window (or satisfies the looping wrap-around rule); in
particular, on the 10-frame non-looping fixture with an event at
frame 5, the window `[0, 256)` includes the event and `[0, 64)`
excludes it. -/
theorem animation_events_window (s : SeqDesc) :
    (∀ (a b : Rat) (e : Event),
      e ∈ s.animation_events a b ↔ e ∈ s.events ∧ specEventMatch s a b e) ∧
    (ev5 ∈ seq10.animation_events 0 256 ∧ ev5 ∉ seq10.animation_events 0 64) := by
  refine ⟨fun a b e => ?_, ?_, ?_⟩
  · simp only [SeqDesc.animation_events, List.mem_filter]
    refine and_congr_right fun _ => ?_
    have hcast : ((s.numframes - 1 : Int) : Rat) = ((s.numframes : Int) : Rat) - 1 := by
      push_cast
      ring
    have hcast2 : ((s.numframes + 1 : Int) : Rat) = ((s.numframes : Int) : Rat) + 1 := by
      push_cast
      ring
    by_cases hc : EventKind.is_client e.event
    · simp [specEventMatch, hc]
    · have hc' : EventKind.is_client e.event = false := by simpa using hc
      by_cases hn : 1 < s.numframes <;>
        simp only [specEventMatch, specWindow, hcast, hcast2, hc', hn, Bool.not_false,
          if_true, if_false, ite_true, ite_false, Bool.and_eq_true, decide_eq_true_eq,
          SeqDesc.is_looping, ge_iff_le, bne_iff_ne, ne_eq, true_and, eq_self_iff_true,
          not_false_iff, iff_true, Bool.false_eq_true, or_false, false_or]
      all_goals
        constructor
        · intro h
          split_ifs at h with h1 h2
          · exact Or.inl h1
          · exact Or.inr ⟨h2.1.1, h2.1.2, h2.2⟩
        · intro h
          split_ifs with h1 h2
          · rfl
          · rfl
          · rcases h with h | h
            · exact absurd h h1
            · exact absurd ⟨⟨h.1, h.2.1⟩, h.2.2⟩ h2
  · have h : seq10.animation_events 0 256 = [ev5] := by
      norm_num [SeqDesc.animation_events, seq10, ev5, EventKind.is_client,
        EventKind.CLIENT, SeqDesc.is_looping, List.filter]
    rw [h]
    exact List.mem_singleton.mpr rfl
  · have h : seq10.animation_events 0 64 = [] := by
      norm_num [SeqDesc.animation_events, seq10, ev5, EventKind.is_client,
        EventKind.CLIENT, SeqDesc.is_looping, List.filter]
    rw [h]
    exact List.not_mem_nil ev5

/-- C4 (amended): for a rotation bone controller whose range is not
near-circular, the post-negation input is wrapped by the truncating-cast
arithmetic into the closed interval `[0, 360]` — the boundary `360` is
attained (for example by input `360` itself) — and the wrapped value
differs from the input by an integer multiple of `360`, provided the
input is within the span where the saturating `as i32` cast does not
saturate. -/
theorem wrap_into_circle (start end_ v : Rat)
    (hrange : start + 359 < end_)
    (hlo : -(360 * (2 ^ 31 - 1)) < v) (hhi : v < 360 * 2 ^ 31) :
    0 ≤ wrapAngle start end_ v ∧ wrapAngle start end_ v ≤ 360 ∧
      ∃ k : Int, wrapAngle start end_ v = v + 360 * (k : Rat) := by
  have hlo' : (-773094112920 : Rat) < v := by
    norm_num at hlo
    linarith
  have hhi' : v < (773094113280 : Rat) := by
    norm_num at hhi
    linarith
  unfold wrapAngle
  rw [if_neg (by linarith)]
  by_cases h1 : v > 360
  · rw [if_pos h1]
    have hnn : (0 : Rat) ≤ v / 360 := by positivity
    have hfl : (0 : Int) ≤ ⌊(v / 360 : Rat)⌋ := Int.floor_nonneg.mpr hnn
    have hub : ⌊(v / 360 : Rat)⌋ ≤ 2 ^ 31 - 1 := by
      have hx : (v / 360 : Rat) < ((2147483648 : Int) : Rat) := by
        rw [div_lt_iff₀ (by norm_num : (0 : Rat) < 360)]
        push_cast
        linarith
      have h2 := Int.floor_lt.mpr hx
      omega
    have hcast : f32_to_i32 (v / 360) = ⌊(v / 360 : Rat)⌋ := by
      unfold f32_to_i32 ratTrunc
      rw [if_pos hnn, min_eq_right hub, max_eq_right (by omega)]
    rw [hcast]
    have hle : (⌊(v / 360 : Rat)⌋ : Rat) * 360 ≤ v := by
      have h := Int.floor_le (v / 360 : Rat)
      rw [le_div_iff₀ (by norm_num : (0 : Rat) < 360)] at h
      exact h
    have hlt : v < (⌊(v / 360 : Rat)⌋ : Rat) * 360 + 360 := by
      have h := Int.lt_floor_add_one (v / 360 : Rat)
      rw [div_lt_iff₀ (by norm_num : (0 : Rat) < 360)] at h
      linarith
    exact ⟨by linarith, by linarith, ⟨-⌊(v / 360 : Rat)⌋, by push_cast; ring⟩⟩
  · rw [if_neg h1]
    by_cases h2 : v < 0
    · rw [if_pos h2]
      have hflip : (v / (-360) : Rat) = -v / 360 := by
        ring
      have hnn : (0 : Rat) ≤ v / (-360) := by
        rw [hflip]
        exact div_nonneg (by linarith) (by norm_num)
      have hfl : (0 : Int) ≤ ⌊(v / (-360) : Rat)⌋ := Int.floor_nonneg.mpr hnn
      have hub : ⌊(v / (-360) : Rat)⌋ + 1 ≤ 2 ^ 31 - 1 := by
        have hx : (v / (-360) : Rat) < ((2147483647 : Int) : Rat) := by
          rw [hflip, div_lt_iff₀ (by norm_num : (0 : Rat) < 360)]
          push_cast
          linarith
        have h3 := Int.floor_lt.mpr hx
        omega
      have hcast : f32_to_i32 (v / (-360) + 1) = ⌊(v / (-360) : Rat)⌋ + 1 := by
        unfold f32_to_i32 ratTrunc
        rw [if_pos (by linarith), Int.floor_add_one, min_eq_right hub,
          max_eq_right (by omega)]
      rw [hcast]
      have hveq : -360 * (v / (-360) : Rat) = v := by
        field_simp
      have hle : (⌊(v / (-360) : Rat)⌋ : Rat) ≤ v / (-360) := Int.floor_le _
      have hlt : (v / (-360) : Rat) < (⌊(v / (-360) : Rat)⌋ : Rat) + 1 :=
        Int.lt_floor_add_one _
      refine ⟨?_, ?_, ⟨⌊(v / (-360) : Rat)⌋ + 1, by push_cast; ring⟩⟩
      · push_cast
        nlinarith [hveq, hlt]
      · push_cast
        nlinarith [hveq, hle]
    · rw [if_neg h2]
      exact ⟨by linarith, by linarith, ⟨0, by push_cast; ring⟩⟩

/-- C4 witness: with the non-near-circular rotational range `[0, 720]`
and input `721`, the wrapping step lands in `[0, 360]` and shifts the
input by a multiple of `360`. -/
theorem wrap_into_circle_wit :
    0 ≤ wrapAngle 0 720 721 ∧ wrapAngle 0 720 721 ≤ 360 ∧
      ∃ k : Int, wrapAngle 0 720 721 = 721 + 360 * (k : Rat) :=
  wrap_into_circle 0 720 721 (by norm_num) (by norm_num) (by norm_num)

/-- C4 counterexample: for the rotational controller with the
non-near-circular range `[0, 720]`, the input value `360` passes both
wrap guards unchanged, so the wrapped value is exactly `360` — outside
the half-open interval `[0, 360)` the claim asserts. -/
theorem wrap_into_circle_cex :
    BoneController.is_rotational ⟨8, 0, 720, 2⟩ = true ∧
    (0 : Rat) + 359 < 720 ∧
    wrapAngle 0 720 360 = 360 ∧ ¬(wrapAngle 0 720 360 < 360) := by
  refine ⟨by decide, by norm_num, ?_, ?_⟩ <;>
    norm_num [wrapAngle, f32_to_i32, ratTrunc]

/-- Source `find?` over an index-carrying enumeration returns the first match,
with the enumeration offset added to its position. -/
theorem find?_enumFrom_first {α : Type} (p : α → Bool) :
    ∀ (l : List α) (n i : Nat) (s : α), l.get? i = some s → p s = true →
      (∀ j t, j < i → l.get? j = some t → p t = false) →
      (List.enumFrom n l).find? (fun q => p q.2) = some (n + i, s) := by
  intro l
  induction l with
  | nil =>
    intro n i s hget
    simp at hget
  | cons x xs ih =>
    intro n i s hget hp hprev
    cases i with
    | zero =>
      rw [List.get?_cons_zero, Option.some.injEq] at hget
      rw [← hget]
      rw [show List.enumFrom n (x :: xs) = (n, x) :: List.enumFrom (n + 1) xs from rfl]
      rw [List.find?_cons_of_pos _ (by rw [← hget] at hp; simpa using hp)]
      rfl
    | succ j =>
      have hx : p x = false := hprev 0 x (Nat.succ_pos j) rfl
      rw [List.get?_cons_succ] at hget
      have hprev' : ∀ j' t, j' < j → xs.get? j' = some t → p t = false := by
        intro j' t hj' hget'
        exact hprev (j' + 1) t (Nat.succ_lt_succ hj') (by simpa using hget')
      have hrec := ih (n + 1) j s hget hp hprev'
      rw [show List.enumFrom n (x :: xs) = (n, x) :: List.enumFrom (n + 1) xs from rfl]
      rw [List.find?_cons_of_neg _ (by simpa using hx), hrec]
      have harith : n + 1 + j = n + (j + 1) := by omega
      rw [harith]

/-- C8: `find_sequence_index(name)` answers the sentinel `0` when no
label matches the name case-insensitively, and otherwise the index of
the first (lowest-index) sequence whose label matches. -/
theorem find_sequence_index_first_match (m : Model) (name : String) :
    ((∀ s ∈ m.sequences, eq_ignore_case s.label name = false) →
      m.find_sequence_index name = 0) ∧
    (∀ i s, m.sequences.get? i = some s → eq_ignore_case s.label name = true →
      (∀ j t, j < i → m.sequences.get? j = some t →
        eq_ignore_case t.label name = false) →
      m.find_sequence_index name = i) := by
  constructor
  · intro h
    have hn : m.find_sequence name = none := by
      apply List.find?_eq_none.mpr
      intro x hx
      have h2 := List.mem_enum_iff_get?.mp hx
      have h3 : x.2 ∈ m.sequences := List.get?_mem h2
      simp [h x.2 h3]
    simp [Model.find_sequence_index, hn]
  · intro i s hget hp hprev
    have hs : m.find_sequence name = some (i, s) := by
      unfold Model.find_sequence Model.sequencesEnum
      have h := find?_enumFrom_first (fun t => eq_ignore_case t.label name)
        m.sequences 0 i s hget hp hprev
      simpa [List.enum] using h
    simp [Model.find_sequence_index, hs]

/-- C8 witness: on the fixture with labels `a`, `b`, the query `B`
matches case-insensitively at index `1` and nowhere earlier. -/
theorem find_sequence_index_first_match_wit :
    modelTie.find_sequence_index "B" = 1 :=
  (find_sequence_index_first_match modelTie "B").2 1 (simpleSeq "b" 3 5) rfl
    (by decide)
    (fun j t hj hget => by
      have hj0 : j = 0 := by omega
      subst hj0
      have ht : t = simpleSeq "a" 3 5 := by
        simpa [modelTie] using hget.symm
      subst ht
      decide)

/-- The index components of an enumeration are strictly increasing. -/
theorem pairwise_fst_lt_enumFrom {α : Type} :
    ∀ (l : List α) (n : Nat),
      List.Pairwise (fun a b : Nat × α => a.1 < b.1) (List.enumFrom n l) := by
  intro l
  induction l with
  | nil =>
    intro n
    simp
  | cons x xs ih =>
    intro n
    rw [show List.enumFrom n (x :: xs) = (n, x) :: List.enumFrom (n + 1) xs from rfl]
    refine List.Pairwise.cons ?_ (ih (n + 1))
    intro y hy
    have h := (List.mk_mem_enumFrom_iff_le_and_get?_sub
      (x := y.2) (l := xs)).mp hy
    exact Nat.lt_of_lt_of_le (Nat.lt_succ_self n) h.1

/-- The activity-filtered enumeration keeps strictly increasing
indices. -/
theorem pairwise_sequences_by_activity (m : Model) (act : Int) :
    List.Pairwise (fun a b : Nat × SeqDesc => a.1 < b.1)
      (m.sequences_by_activity act) := by
  unfold Model.sequences_by_activity Model.sequencesEnum
  exact List.Pairwise.filter _
    (show List.Pairwise _ (List.enumFrom 0 m.sequences) from
      pairwise_fst_lt_enumFrom m.sequences 0)

/-- The activity-filtered enumeration is empty exactly when no sequence
carries the activity. -/
theorem sequences_by_activity_eq_nil (m : Model) (act : Int) :
    m.sequences_by_activity act = [] ↔ ∀ s ∈ m.sequences, s.activity ≠ act := by
  unfold Model.sequences_by_activity Model.sequencesEnum
  rw [List.filter_eq_nil]
  constructor
  · intro h s hs
    obtain ⟨i, hi⟩ := List.mem_iff_get?.mp hs
    have h2 := h (i, s) (List.mem_enum_iff_get?.mpr hi)
    simpa using h2
  · intro h p hp
    have h2 := List.mem_enum_iff_get?.mp hp
    have h3 : p.2 ∈ m.sequences := List.get?_mem h2
    simpa using h p.2 h3

/-- The `max_by_key` fold over a list with strictly increasing indices
returns an element whose key is maximal, with ties going to the element
with the larger index (the one encountered later). -/
theorem foldl_max_spec {α : Type} (key : α → Int) (fst : α → Nat) :
    ∀ (l : List α) (x : α),
      List.Pairwise (fun a b => fst a < fst b) (x :: l) →
      (l.foldl (fun a b => if key b < key a then a else b) x ∈ x :: l) ∧
      ∀ y ∈ x :: l,
        key y ≤ key (l.foldl (fun a b => if key b < key a then a else b) x) ∧
        (key (l.foldl (fun a b => if key b < key a then a else b) x) ≤ key y →
          fst y ≤ fst (l.foldl (fun a b => if key b < key a then a else b) x)) := by
  intro l
  induction l with
  | nil =>
    intro x _
    refine ⟨List.mem_singleton.mpr rfl, ?_⟩
    intro y hy
    rw [List.mem_singleton] at hy
    subst hy
    exact ⟨le_refl _, fun _ => le_refl _⟩
  | cons b l ih =>
    intro x hp
    rw [List.foldl_cons]
    rcases List.pairwise_cons.mp hp with ⟨hx, hbt⟩
    by_cases hb : key b < key x
    · rw [if_pos hb]
      have hpx : List.Pairwise (fun a c => fst a < fst c) (x :: l) := by
        refine List.Pairwise.cons ?_ (List.pairwise_cons.mp hbt).2
        intro y hy
        exact hx y (List.mem_cons_of_mem b hy)
      obtain ⟨hmem, hall⟩ := ih x hpx
      refine ⟨?_, ?_⟩
      · rcases List.mem_cons.mp hmem with h | h
        · rw [h]
          exact List.mem_cons_self x (b :: l)
        · exact List.mem_cons_of_mem x (List.mem_cons_of_mem b h)
      · intro y hy
        rcases List.mem_cons.mp hy with h | h
        · subst h
          exact hall y (List.mem_cons_self y l)
        · rcases List.mem_cons.mp h with h2 | h2
          · subst h2
            have hxr := hall x (List.mem_cons_self x l)
            constructor
            · exact le_of_lt (lt_of_lt_of_le hb hxr.1)
            · intro hcontra
              exact absurd (lt_of_lt_of_le hb (le_trans hxr.1 hcontra))
                (lt_irrefl _)
          · exact hall y (List.mem_cons_of_mem x h2)
    · rw [if_neg hb]
      obtain ⟨hmem, hall⟩ := ih b hbt
      have hxle : key x ≤ key b := not_lt.mp hb
      refine ⟨List.mem_cons_of_mem x hmem, ?_⟩
      intro y hy
      rcases List.mem_cons.mp hy with h | h
      · subst h
        have hbr := hall b (List.mem_cons_self b l)
        constructor
        · exact le_trans hxle hbr.1
        · intro _
          exact le_of_lt (hx _ hmem)
      · exact hall y h

/-- C1 (amended): `find_sequence_by_activity_heaviest` returns "not
found" exactly when no sequence carries the activity; otherwise it
returns a candidate of the requested activity whose weight is maximal,
with ties in weight broken in favour of the later-encountered
candidate, i.e. the one with the highest sequence index. -/
theorem heaviest_last_max (m : Model) (act : Int) :
    (m.find_sequence_by_activity_heaviest act = none ↔
      ∀ s ∈ m.sequences, s.activity ≠ act) ∧
    (∀ i s, m.find_sequence_by_activity_heaviest act = some (i, s) →
      (i, s) ∈ m.sequences_by_activity act ∧
      ∀ j t, (j, t) ∈ m.sequences_by_activity act →
        t.actweight ≤ s.actweight ∧ (s.actweight ≤ t.actweight → j ≤ i)) := by
  constructor
  · rw [← sequences_by_activity_eq_nil m act]
    unfold Model.find_sequence_by_activity_heaviest
    cases hc : m.sequences_by_activity act with
    | nil => simp [max_by_key]
    | cons c rest => simp [max_by_key]
  · intro i s heq
    unfold Model.find_sequence_by_activity_heaviest at heq
    rcases hcands : m.sequences_by_activity act with _ | ⟨c, rest⟩
    · rw [hcands] at heq
      exact absurd heq (by simp [max_by_key])
    · rw [hcands] at heq
      simp only [max_by_key, Option.some.injEq] at heq
      have hpair : List.Pairwise (fun a b : Nat × SeqDesc => a.1 < b.1) (c :: rest) := by
        rw [← hcands]
        exact pairwise_sequences_by_activity m act
      obtain ⟨hmem, hall⟩ :=
        foldl_max_spec (fun p : Nat × SeqDesc => p.2.actweight) Prod.fst rest c hpair
      rw [heq] at hmem hall
      refine ⟨hmem, ?_⟩
      intro j t hjt
      exact hall (j, t) hjt

/-- C1 counterexample: on a model whose two sequences share activity 3
with equal weights, `find_sequence_by_activity_heaviest` returns the
candidate at index 1 — the later-encountered one, not the
first-encountered lowest index the claim asserts. -/
theorem heaviest_last_max_cex :
    (modelTie.sequences.map SeqDesc.activity = [3, 3] ∧
     modelTie.sequences.map SeqDesc.actweight = [5, 5]) ∧
    (modelTie.find_sequence_by_activity_heaviest 3).map Prod.fst = some 1 := by
  refine ⟨⟨rfl, rfl⟩, ?_⟩
  rfl

/-- C2 (amended): against any range-respecting random source,
`find_sequence_by_activity` returns "not found" when no sequence has
the activity, and over exactly one candidate of nonnegative weight it
returns that candidate regardless of the draws.  (A single candidate of
negative weight makes the loop draw from the empty range
`[0, total - 1]` with `total < 0`, and the candidate can be missed.) -/
theorem weighted_single_candidate (m : Model) (act : Int)
    (rand : Nat → Int → Int → Int)
    (hr : ∀ k lo hi, lo ≤ hi → lo ≤ rand k lo hi ∧ rand k lo hi ≤ hi) :
    ((∀ s ∈ m.sequences, s.activity ≠ act) →
      m.find_sequence_by_activity act rand = none) ∧
    (∀ i s, m.sequences_by_activity act = [(i, s)] → 0 ≤ s.actweight →
      m.find_sequence_by_activity act rand = some (i, s)) := by
  constructor
  · intro h
    unfold Model.find_sequence_by_activity
    rw [(sequences_by_activity_eq_nil m act).mpr h]
    rfl
  · intro i s hc hw
    unfold Model.find_sequence_by_activity
    rw [hc]
    by_cases h0 : s.actweight = 0
    · simp [selectByActivity, h0]
    · have hw' : 0 < s.actweight := lt_of_le_of_ne hw (Ne.symm h0)
      have hrand := hr 0 0 (0 + s.actweight - 1) (by omega)
      have hlt : rand 0 0 (0 + s.actweight - 1) < s.actweight := by omega
      have hne : (0 + s.actweight == 0) = false := by
        simp
        omega
      rw [show selectByActivity rand [(i, s)] 0 0 none =
          (if (0 + s.actweight == 0) = true then
            selectByActivity rand [] 0 (0 + s.actweight) (some (i, s))
          else if rand 0 0 (0 + s.actweight - 1) < s.actweight then
            selectByActivity rand [] (0 + 1) (0 + s.actweight) (some (i, s))
          else selectByActivity rand [] (0 + 1) (0 + s.actweight) none) from rfl]
      rw [if_neg (by rw [hne]; exact Bool.false_ne_true), if_pos hlt]
      rfl

/-- C2 witness: on a model whose only activity-3 sequence has weight 2,
the low-end-drawing range-respecting random source still selects it. -/
theorem weighted_single_candidate_wit :
    modelSingle.find_sequence_by_activity 3 randLo = some (1, simpleSeq "b" 3 2) :=
  (weighted_single_candidate modelSingle 3 randLo
      (fun _ lo _ h => ⟨le_refl lo, h⟩)).2 1 (simpleSeq "b" 3 2) rfl (by norm_num [simpleSeq])

/-- C2 counterexample: the model has exactly one sequence of activity 3,
with weight `-5`; against a random source that respects every nonempty
range (it always draws the low end), the selection loop misses the
single candidate and returns "not found". -/
theorem weighted_single_candidate_cex :
    modelNegWeight.sequences_by_activity 3 =
      [(0, simpleSeq "a" 3 (-5))] ∧
    (∀ k lo hi, lo ≤ hi → lo ≤ randLo k lo hi ∧ randLo k lo hi ≤ hi) ∧
    modelNegWeight.find_sequence_by_activity 3 randLo = none := by
  exact ⟨rfl, fun _ lo _ h => ⟨le_refl lo, h⟩, rfl⟩

/-- C1 witness: on the spec's weighted example the heaviest lookup
answers the weight-9 candidate at index 1, which belongs to the
activity-3 candidate set and dominates the weight-5 candidate. -/
theorem heaviest_last_max_wit :
    (1, simpleSeq "b" 3 9) ∈ modelWeights.sequences_by_activity 3 ∧
      (simpleSeq "a" 3 5).actweight ≤ (simpleSeq "b" 3 9).actweight := by
  have h := (heaviest_last_max modelWeights 3).2 1 (simpleSeq "b" 3 9) rfl
  exact ⟨h.1, (h.2 0 (simpleSeq "a" 3 5) (by decide)).1⟩

/-- C3 witness: the full-range query on the 10-frame fixture includes
the frame-5 event. -/
theorem animation_events_window_wit :
    ev5 ∈ seq10.animation_events 0 256 :=
  (animation_events_window seq10).2.1

/-- C5 witness: a sequence whose only event is a sound event with empty
options makes no precache call and counts exactly one diagnostic. -/
theorem precache_sound_calls_wit :
    SeqDesc.precache ⟨"s", 0, 0, 0, 0, 1, [⟨0, 1004, ""⟩]⟩ = ([], 1) := by
  rw [precache_sound_calls]
  rfl

/-- C7 witness: the raw kind value 5 lies in a band. -/
theorem event_bands_partition_wit :
    EventKind.is_specific 5 = true ∨ EventKind.is_scripted 5 = true ∨
      EventKind.is_shared 5 = true ∨ EventKind.is_client 5 = true :=
  (event_bands_partition 5).1.mpr (by norm_num)
